import Mathlib

/-!
A shallow embedding of the strategy-versioning data-access layer of the
exvoria-strat-management application, together with proofs about it.

The embedding models:
  * the four database tables (`maps`, `strategies`, `strategy_versions`,
    `strategy_images`) as lists of rows inside a `DB` state, with identities
    drawn from a monotone allocator `nextId` (standing in for backend-side
    UUID generation);
  * the data-access functions of `lib/database.ts` (`createStrategy`,
    `updateStrategy`, `copyImagesToVersion`, `getStrategy` with its RPC and
    fallback paths, the image CRUD helpers, and the map CRUD helpers with
    their in-process mock branch used when the Supabase client is null);
  * the page-level logic of the strategy edit/create pages
    (`handleImageSelect` validation, the sequential `uploadStrategyImages`
    loop, and the description-edit matching performed in `onSubmit`).

Conventions:
  * `cfg : Bool` stands for "the Supabase client is configured (non-null)".
  * PostgREST's `.single()` is modelled by `selectSingle`, which succeeds
    exactly when the filtered row set has exactly one element.
  * Backend-side failures that the code branches on (a failing RPC call, a
    failing select, a failing per-row insert, a failing storage upload) are
    modelled by explicit oracle parameters (`rpcFails`, `selectFails`,
    `insertFails`, `uploadFails`), since the embedding's own state never
    fails spontaneously.
  * `TIMESTAMP` columns are maintained by backend defaults (`DEFAULT NOW()`)
    and are omitted; no verified property depends on them.  Listing order by
    `updated_at` is consequently not modelled.
  * JavaScript string operations that appear in the source (`||` defaulting
    on falsy strings, `.trim()`, `.startsWith`) are modelled by the
    executable functions `jsOr`, `jsTrim` and `jsStartsWith`.
-/

namespace ExvoriaStrat

/-- JavaScript `a || b` for strings: the empty string is falsy. -/
def jsOr (a b : String) : String :=
  if a = "" then b else a

/-- JavaScript `a || b` where `a` may be `undefined`/`null` (modelled as
`Option`) and the empty string is falsy. -/
def jsOrOpt (a : Option String) (b : String) : String :=
  match a with
  | none => b
  | some s => jsOr s b

/-- Strip leading and trailing whitespace from a character list. -/
def trimChars (l : List Char) : List Char :=
  (((l.dropWhile Char.isWhitespace).reverse).dropWhile Char.isWhitespace).reverse

/-- JavaScript `String.prototype.trim`. -/
def jsTrim (s : String) : String :=
  String.mk (trimChars s.data)

/-- JavaScript `String.prototype.startsWith`. -/
def jsStartsWith (s pre : String) : Bool :=
  pre.data.isPrefixOf s.data

/-- A row of the `maps` table (also the shape of the in-process mock maps).
`created_at` / `updated_at` are backend-maintained and omitted. -/
structure MapRow where
  id : Nat
  name : String
  description : String
  strategy_count : Nat
  deriving DecidableEq

/-- A row of the `strategies` table.  `title` and `description` are the
legacy denormalized copies kept alongside the versioned content. -/
structure StrategyRow where
  id : Nat
  map_id : Nat
  title : String
  description : String
  current_version_id : Option Nat
  deriving DecidableEq

/-- A row of the `strategy_versions` table. -/
structure VersionRow where
  id : Nat
  strategy_id : Nat
  version_number : Nat
  title : String
  description : String
  change_notes : Option String
  deriving DecidableEq

/-- A row of the `strategy_images` table. -/
structure ImageRow where
  id : Nat
  strategy_id : Option Nat
  version_id : Option Nat
  storage_path : String
  bucket_name : String
  url : String
  alt_text : Option String
  position_in_content : Nat
  deriving DecidableEq

/-- The remote database state.  `nextId` is the identity allocator standing
in for backend UUID generation: every insert consumes one identity. -/
structure DB where
  nextId : Nat
  maps : List MapRow
  strategies : List StrategyRow
  versions : List VersionRow
  images : List ImageRow
  deriving DecidableEq

/-- Errors surfaced by the data-access layer. -/
inductive DbError where
  /-- Thrown when the Supabase client is not configured. -/
  | configuration (msg : String)
  /-- A `.single()` call did not match exactly one row, or an RPC /
  select / insert failed on the backend. -/
  | singleRowFailure
  /-- A backend query failure injected by a failure oracle. -/
  | backendFailure
  /-- The mock `updateMap` branch threw `Map not found`. -/
  | mapNotFound
  deriving DecidableEq

/-- PostgREST `.single()`: succeeds iff the row set has exactly one row. -/
def selectSingle {α : Type} : List α → Option α
  | [a] => some a
  | _ => none

/-- `SELECT * FROM strategies WHERE id = sid` followed by `.single()`. -/
def findStrategy (db : DB) (sid : Nat) : Option StrategyRow :=
  selectSingle (db.strategies.filter (fun s => s.id == sid))

/-- `SELECT * FROM strategy_versions WHERE id = vid` followed by `.single()`. -/
def findVersion (db : DB) (vid : Nat) : Option VersionRow :=
  selectSingle (db.versions.filter (fun v => v.id == vid))

/-- The image rows of a strategy, in table order (no `ORDER BY`). -/
def imagesOf (db : DB) (sid : Nat) : List ImageRow :=
  db.images.filter (fun i => i.strategy_id == some sid)

/-- `ORDER BY position_in_content` on image rows. -/
def sortByPosition (l : List ImageRow) : List ImageRow :=
  l.insertionSort (fun a b => a.position_in_content ≤ b.position_in_content)

/-- All version rows belonging to a strategy. -/
def strategyVersionsOf (db : DB) (sid : Nat) : List VersionRow :=
  db.versions.filter (fun v => v.strategy_id == sid)

/-- Well-formedness of the identity allocator: every stored identity (and
every strategy referenced by a version row) was allocated in the past, and
per-table identities are distinct.  Every reachable backend state satisfies
this; it is what backend UUID uniqueness provides. -/
def Fresh (db : DB) : Prop :=
  (∀ m ∈ db.maps, m.id < db.nextId) ∧
  (∀ s ∈ db.strategies, s.id < db.nextId) ∧
  (∀ v ∈ db.versions, v.id < db.nextId) ∧
  (∀ i ∈ db.images, i.id < db.nextId) ∧
  (db.maps.map (fun m => m.id)).Nodup ∧
  (db.strategies.map (fun s => s.id)).Nodup ∧
  (db.versions.map (fun v => v.id)).Nodup ∧
  (db.images.map (fun i => i.id)).Nodup ∧
  (∀ v ∈ db.versions, v.strategy_id < db.nextId)

instance (db : DB) : Decidable (Fresh db) := by
  unfold Fresh; infer_instance

/-- `CreateMapForm` of `types/database.ts`. -/
structure CreateMapForm where
  name : String
  description : Option String
  deriving DecidableEq

/-- `CreateStrategyForm` of `types/database.ts`. -/
structure CreateStrategyForm where
  map_id : Nat
  title : String
  description : String
  change_notes : Option String
  deriving DecidableEq

/-- `UpdateStrategyForm` of `types/database.ts`. -/
structure UpdateStrategyForm where
  title : String
  description : String
  change_notes : Option String
  deriving DecidableEq

/-- The module-level `mockMaps` list of `lib/database.ts` (identities `'1'`
and `'2'` rendered as allocator values 1 and 2). -/
def mockMaps : List MapRow :=
  [ { id := 1, name := "Desert Storm",
      description := "A classic desert map perfect for long-range engagements",
      strategy_count := 0 },
    { id := 2, name := "Urban Warfare",
      description := "Close-quarters combat in city environments",
      strategy_count := 0 } ]

/-- Partial `Map` update data (`Partial<Map>` restricted to the fields the
application ever patches). -/
structure MapPatch where
  name : Option String
  description : Option String
  deriving DecidableEq

/-- Spread-merge of a partial update onto a map row. -/
def applyMapPatch (p : MapPatch) (m : MapRow) : MapRow :=
  { m with
    name := p.name.getD m.name
    description := p.description.getD m.description }

/-- The backend trigger `update_map_strategy_count` reacting to an insert
into `strategies`. -/
def bumpStrategyCount (maps : List MapRow) (mapId : Nat) (delta : Int) : List MapRow :=
  maps.map (fun m =>
    if m.id == mapId then { m with strategy_count := (Int.toNat (m.strategy_count + delta)) } else m)

/-- `ON DELETE CASCADE` from `maps` through `strategies` to versions and
images, as declared in the schema. -/
def cascadeDeleteStrategy (db : DB) (sid : Nat) : DB :=
  { db with
    strategies := db.strategies.filter (fun s => s.id != sid)
    versions := db.versions.filter (fun v => v.strategy_id != sid)
    images := db.images.filter (fun i => i.strategy_id != some sid) }

/-- `getMaps` of `lib/database.ts`: mock list when unconfigured, otherwise
the `maps` table ordered by name. -/
def getMaps (cfg : Bool) (mock : List MapRow) (db : DB) : List MapRow :=
  if cfg = false then mock
  else db.maps.insertionSort (fun a b => a.name ≤ b.name)

/-- `getMap`: mock `find || null` when unconfigured, otherwise a
`.single()` select. -/
def getMap (cfg : Bool) (mock : List MapRow) (db : DB) (id : Nat) :
    Except DbError (Option MapRow) :=
  if cfg = false then .ok (mock.find? (fun m => m.id == id))
  else
    match selectSingle (db.maps.filter (fun m => m.id == id)) with
    | some m => .ok (some m)
    | none => .error .singleRowFailure

/-- `createMap`: pushes onto the mock list when unconfigured (the mock
identity `Date.now().toString()` is modelled by the `now` parameter),
otherwise inserts into the `maps` table. -/
def createMap (cfg : Bool) (mock : List MapRow) (db : DB) (now : Nat)
    (f : CreateMapForm) : MapRow × List MapRow × DB :=
  if cfg = false then
    let newMap : MapRow :=
      { id := now, name := f.name, description := f.description.getD "",
        strategy_count := 0 }
    (newMap, mock ++ [newMap], db)
  else
    let newMap : MapRow :=
      { id := db.nextId, name := f.name, description := f.description.getD "",
        strategy_count := 0 }
    (newMap, mock, { db with nextId := db.nextId + 1, maps := db.maps ++ [newMap] })

/-- `updateMap`: mutates the mock list entry (throwing `Map not found` when
absent) or updates the table row. -/
def updateMap (cfg : Bool) (mock : List MapRow) (db : DB) (id : Nat)
    (p : MapPatch) : Except DbError (MapRow × List MapRow × DB) :=
  if cfg = false then
    match mock.find? (fun m => m.id == id) with
    | none => .error .mapNotFound
    | some m =>
      let updated := applyMapPatch p m
      .ok (updated, mock.map (fun x => if x.id == id then updated else x), db)
  else
    let maps' := db.maps.map (fun x => if x.id == id then applyMapPatch p x else x)
    match selectSingle (maps'.filter (fun m => m.id == id)) with
    | none => .error .singleRowFailure
    | some updated => .ok (updated, mock, { db with maps := maps' })

/-- `deleteMap`: splices the mock list or deletes the row (the schema
cascades the delete through strategies, versions and images). -/
def deleteMap (cfg : Bool) (mock : List MapRow) (db : DB) (id : Nat) :
    List MapRow × DB :=
  if cfg = false then (mock.filter (fun m => m.id != id), db)
  else
    let victims := (db.strategies.filter (fun s => s.map_id == id)).map (fun s => s.id)
    (mock,
      { db with
        maps := db.maps.filter (fun m => m.id != id)
        strategies := db.strategies.filter (fun s => s.map_id != id)
        versions := db.versions.filter (fun v => !victims.contains v.strategy_id)
        images := db.images.filter (fun i =>
          match i.strategy_id with
          | none => true
          | some sid => !victims.contains sid) })

/-- The shape of a strategy fetched with its joined data
(`StrategyWithVersion`).  `title` / `description` are `Option` because the
aggregated RPC result omits these top-level fields entirely while the
fallback path synthesizes them. -/
structure StrategyFetchResult where
  id : Nat
  map_id : Nat
  current_version_id : Option Nat
  title : Option String
  description : Option String
  current_version : Option VersionRow
  images : List ImageRow
  deriving DecidableEq

/-- The JSON object built per strategy by the `get_strategy_with_version` /
`get_strategies_with_versions` SQL functions: raw strategy columns (without
the legacy title/description), the current version row, and the image rows
ordered by `position_in_content`. -/
def rpcResult (db : DB) (s : StrategyRow) : StrategyFetchResult :=
  { id := s.id, map_id := s.map_id, current_version_id := s.current_version_id,
    title := none, description := none,
    current_version := s.current_version_id.bind (findVersion db),
    images := sortByPosition (imagesOf db s.id) }

/-- The aggregated-RPC path of `getStrategy` (`get_strategy_with_version`):
`null` when the strategy does not exist. -/
def getStrategyRpc (db : DB) (sid : Nat) : Option StrategyFetchResult :=
  (findStrategy db sid).map (rpcResult db)

/-- The fallback multi-query path of `getStrategy`: a `.single()` select of
the strategy with embedded images, a manual fetch of the current version
(whose error is swallowed), and top-level `title`/`description` synthesized
with JavaScript `||` defaulting. -/
def getStrategyFallback (db : DB) (sid : Nat) : Except DbError StrategyFetchResult :=
  match findStrategy db sid with
  | none => .error .singleRowFailure
  | some strategyData =>
    let current_version : Option VersionRow :=
      match strategyData.current_version_id with
      | some vid => findVersion db vid
      | none => none
    .ok { id := strategyData.id, map_id := strategyData.map_id,
          current_version_id := strategyData.current_version_id,
          title := some (jsOr strategyData.title
            ((current_version.map (fun v => v.title)).getD "")),
          description := some (jsOr strategyData.description
            ((current_version.map (fun v => v.description)).getD "")),
          current_version := current_version,
          images := imagesOf db sid }

/-- `getStrategy`: `null` when unconfigured; otherwise the RPC path, with
the fallback path used when the RPC call fails. -/
def getStrategy (cfg rpcFails : Bool) (db : DB) (sid : Nat) :
    Except DbError (Option StrategyFetchResult) :=
  if cfg = false then .ok none
  else if rpcFails then (getStrategyFallback db sid).map some
  else .ok (getStrategyRpc db sid)

/-- The fallback path of `getStrategies` (per strategy: embedded images,
manual current-version fetch with the error swallowed; the legacy row
title/description are spread through unchanged). -/
def getStrategiesFallbackItem (db : DB) (s : StrategyRow) : StrategyFetchResult :=
  { id := s.id, map_id := s.map_id, current_version_id := s.current_version_id,
    title := some s.title, description := some s.description,
    current_version :=
      match s.current_version_id with
      | some vid => findVersion db vid
      | none => none,
    images := sortByPosition (imagesOf db s.id) }

/-- `getStrategies`: empty when unconfigured; otherwise the aggregated RPC,
falling back to a join-plus-manual-version-fetch query when the RPC fails.
(The `updated_at` listing order is backend-maintained and not modelled.) -/
def getStrategies (cfg rpcFails : Bool) (db : DB) (mapId : Option Nat) :
    Except DbError (List StrategyFetchResult) :=
  if cfg = false then .ok []
  else
    let rows := db.strategies.filter (fun s =>
      match mapId with
      | some m => s.map_id == m
      | none => true)
    if rpcFails then .ok (rows.map (getStrategiesFallbackItem db))
    else .ok (rows.map (rpcResult db))

/-- `createStrategy`: insert the strategy row, insert the initial version
with `version_number` fixed at 1, repoint `current_version_id`, re-fetch
the version, and return the assembled result with an empty image list.
The schema trigger bumps the owning map's `strategy_count`. -/
def createStrategy (cfg : Bool) (db : DB) (f : CreateStrategyForm) :
    Except DbError (DB × StrategyFetchResult) :=
  if cfg = false then
    .error (.configuration "Strategy creation requires Supabase configuration")
  else
    let strat : StrategyRow :=
      { id := db.nextId, map_id := f.map_id, title := f.title,
        description := f.description, current_version_id := none }
    let dbA : DB :=
      { db with
        nextId := db.nextId + 1
        strategies := db.strategies ++ [strat]
        maps := bumpStrategyCount db.maps f.map_id 1 }
    let version : VersionRow :=
      { id := dbA.nextId, strategy_id := strat.id, version_number := 1,
        title := f.title, description := f.description,
        change_notes := some (jsOrOpt f.change_notes "Initial version") }
    let dbB : DB :=
      { dbA with nextId := dbA.nextId + 1, versions := dbA.versions ++ [version] }
    let dbC : DB :=
      { dbB with
        strategies := dbB.strategies.map (fun s =>
          if s.id == strat.id then { s with current_version_id := some version.id } else s) }
    match findStrategy dbC strat.id with
    | none => .error .singleRowFailure
    | some updatedStrategy =>
      match findVersion dbC version.id with
      | none => .error .singleRowFailure
      | some currentVersion =>
        .ok (dbC,
          { id := updatedStrategy.id, map_id := updatedStrategy.map_id,
            current_version_id := updatedStrategy.current_version_id,
            title := some updatedStrategy.title,
            description := some updatedStrategy.description,
            current_version := some currentVersion,
            images := [] })

/-- `updateStrategy`: read the strategy's `current_version_id`; derive the
next version number (defaulting to 1 when the pointer is absent or the
pointed-at version row cannot be read — that read's error is swallowed);
insert the new version row; repoint the strategy (also refreshing the
legacy title/description columns); fetch the strategy's images. -/
def updateStrategy (cfg : Bool) (db : DB) (id : Nat) (f : UpdateStrategyForm) :
    Except DbError (DB × StrategyFetchResult) :=
  if cfg = false then
    .error (.configuration "Strategy updates require Supabase configuration")
  else
    match findStrategy db id with
    | none => .error .singleRowFailure
    | some currentStrategy =>
      let nextVersionNumber : Nat :=
        match currentStrategy.current_version_id with
        | none => 1
        | some vid =>
          match findVersion db vid with
          | none => 1
          | some currentVersion => currentVersion.version_number + 1
      let newVersion : VersionRow :=
        { id := db.nextId, strategy_id := id, version_number := nextVersionNumber,
          title := f.title, description := f.description,
          change_notes := f.change_notes }
      let db1 : DB :=
        { db with nextId := db.nextId + 1, versions := db.versions ++ [newVersion] }
      let db2 : DB :=
        { db1 with
          strategies := db1.strategies.map (fun s =>
            if s.id == id then
              { s with current_version_id := some newVersion.id,
                       title := f.title, description := f.description }
            else s) }
      match findStrategy db2 id with
      | none => .error .singleRowFailure
      | some updatedStrategy =>
        .ok (db2,
          { id := updatedStrategy.id, map_id := updatedStrategy.map_id,
            current_version_id := updatedStrategy.current_version_id,
            title := some updatedStrategy.title,
            description := some updatedStrategy.description,
            current_version := some newVersion,
            images := sortByPosition (imagesOf db2 id) })

/-- `deleteStrategy`: silently returns when unconfigured; otherwise deletes
the row (cascading per the schema). -/
def deleteStrategy (cfg : Bool) (db : DB) (id : Nat) : Except DbError DB :=
  if cfg = false then .ok db
  else .ok (cascadeDeleteStrategy db id)

/-- `createStrategyImage`: insert an image row, defaulting the alt text and
the position (JavaScript `||`, so an empty alt text also falls back). -/
def createStrategyImage (cfg : Bool) (db : DB) (strategyId : Nat)
    (storagePath bucketName url : String) (altText : Option String)
    (positionInContent : Option Nat) (versionId : Option Nat) :
    Except DbError (DB × ImageRow) :=
  if cfg = false then
    .error (.configuration "Strategy image creation requires Supabase configuration")
  else
    let row : ImageRow :=
      { id := db.nextId, strategy_id := some strategyId, version_id := versionId,
        storage_path := storagePath, bucket_name := bucketName, url := url,
        alt_text := some (jsOrOpt altText ("Strategy diagram for " ++ toString strategyId)),
        position_in_content := positionInContent.getD 0 }
    .ok ({ db with nextId := db.nextId + 1, images := db.images ++ [row] }, row)

/-- The source-row selection of `copyImagesToVersion`: the strategy's image
rows from `fromVersionId` when it is given, its unversioned rows otherwise,
ordered by `position_in_content`. -/
def selectSourceImages (db : DB) (strategyId : Nat) (fromVersionId : Option Nat) :
    List ImageRow :=
  sortByPosition (db.images.filter (fun i =>
    i.strategy_id == some strategyId &&
      (match fromVersionId with
       | some v => i.version_id == some v
       | none => i.version_id == none)))

/-- The row inserted for one source image by the copy loop of
`copyImagesToVersion`: same content fields, `version_id` set to the target
version, a fresh identity. -/
def copiedRow (db : DB) (strategyId : Nat) (toVersionId : Option Nat)
    (image : ImageRow) : ImageRow :=
  { id := db.nextId, strategy_id := some strategyId, version_id := toVersionId,
    storage_path := image.storage_path, bucket_name := image.bucket_name,
    url := image.url, alt_text := image.alt_text,
    position_in_content := image.position_in_content }

/-- Appending one inserted row to the image table. -/
def insertImage (db : DB) (row : ImageRow) : DB :=
  { db with nextId := db.nextId + 1, images := db.images ++ [row] }

/-- The per-image copy loop of `copyImagesToVersion`: each source row is
re-inserted with `version_id` set to the target version; a failing insert
(`insertFails` indexes the loop iteration) is logged and skipped while the
loop continues. -/
def copyLoop (strategyId : Nat) (toVersionId : Option Nat)
    (insertFails : Nat → Bool) : DB → Nat → List ImageRow → DB × List ImageRow
  | db, _, [] => (db, [])
  | db, idx, image :: rest =>
    if insertFails idx then copyLoop strategyId toVersionId insertFails db (idx + 1) rest
    else
      let copiedImage := copiedRow db strategyId toVersionId image
      let (db'', copied) := copyLoop strategyId toVersionId insertFails
        (insertImage db copiedImage) (idx + 1) rest
      (db'', copiedImage :: copied)

/-- `copyImagesToVersion`: refuse when unconfigured; fail the whole call
only when the initial selection query fails; otherwise run the skip-on-
failure copy loop and return the successfully copied rows. -/
def copyImagesToVersion (cfg selectFails : Bool) (insertFails : Nat → Bool)
    (db : DB) (strategyId : Nat) (fromVersionId toVersionId : Option Nat) :
    Except DbError (DB × List ImageRow) :=
  if cfg = false then
    .error (.configuration "Image copying requires Supabase configuration")
  else if selectFails then .error .backendFailure
  else
    let existingImages := selectSourceImages db strategyId fromVersionId
    .ok (copyLoop strategyId toVersionId insertFails db 0 existingImages)

/-- `updateStrategyImage`: set a row's `alt_text` and return the updated
row via `.single()`. -/
def updateStrategyImage (cfg : Bool) (db : DB) (imageId : Nat) (altText : String) :
    Except DbError (DB × ImageRow) :=
  if cfg = false then
    .error (.configuration "Strategy image update requires Supabase configuration")
  else
    let images' := db.images.map (fun i =>
      if i.id == imageId then { i with alt_text := some altText } else i)
    match selectSingle (images'.filter (fun i => i.id == imageId)) with
    | none => .error .singleRowFailure
    | some updated => .ok ({ db with images := images' }, updated)

/-- `deleteStrategyImage`: silently returns when unconfigured; otherwise
deletes the row. -/
def deleteStrategyImage (cfg : Bool) (db : DB) (imageId : Nat) : Except DbError DB :=
  if cfg = false then .ok db
  else .ok { db with images := db.images.filter (fun i => i.id != imageId) }

/-- `getStrategyVersions`: empty when unconfigured; otherwise the
strategy's versions ordered by `version_number` descending. -/
def getStrategyVersions (cfg : Bool) (db : DB) (strategyId : Nat) :
    Except DbError (List VersionRow) :=
  if cfg = false then .ok []
  else .ok ((strategyVersionsOf db strategyId).insertionSort
    (fun a b => b.version_number ≤ a.version_number))

/-- Case-insensitive substring containment, modelling `ilike '%q%'`. -/
def charsContain (needle : List Char) : List Char → Bool
  | [] => needle.isEmpty
  | c :: rest => needle.isPrefixOf (c :: rest) || charsContain needle rest

/-- `title.ilike.%query%` on a row field. -/
def ilikeMatch (query value : String) : Bool :=
  charsContain (query.data.map Char.toLower) (value.data.map Char.toLower)

/-- `searchStrategies`: empty when unconfigured; otherwise the strategies
whose legacy title or description contains the query, each with a manual
current-version fetch and `||`-defaulted title/description. -/
def searchStrategies (cfg : Bool) (db : DB) (query : String) (mapId : Option Nat) :
    Except DbError (List StrategyFetchResult) :=
  if cfg = false then .ok []
  else
    let rows := db.strategies.filter (fun s =>
      (ilikeMatch query s.title || ilikeMatch query s.description) &&
        (match mapId with
         | some m => s.map_id == m
         | none => true))
    .ok (rows.map (fun s =>
      let versionData : Option VersionRow :=
        match s.current_version_id with
        | some vid => findVersion db vid
        | none => none
      { id := s.id, map_id := s.map_id, current_version_id := s.current_version_id,
        title := some (jsOr s.title ((versionData.map (fun v => v.title)).getD "")),
        description := some (jsOr s.description
          ((versionData.map (fun v => v.description)).getD "")),
        current_version := versionData,
        images := sortByPosition (imagesOf db s.id) }))

/-- A file chosen in the browser file picker (`File`): the fields the
validation logic reads. -/
structure UploadFile where
  name : String
  mimeType : String
  size : Nat
  deriving DecidableEq

/-- The client-side validation predicate of `handleImageSelect`:
`file.type.startsWith('image/') && file.size <= 5 * 1024 * 1024`. -/
def isValidUpload (f : UploadFile) : Bool :=
  jsStartsWith f.mimeType "image/" && f.size ≤ 5 * 1024 * 1024

/-- The component state that `handleImageSelect` manipulates. -/
structure SelectState where
  uploadedImages : List UploadFile
  imageDescriptions : List String
  errorMsg : Option String
  deriving DecidableEq

/-- `handleImageSelect`: queue the valid files (with blank descriptions),
reporting an error message when any file was rejected. -/
def handleImageSelect (files : List UploadFile) (st : SelectState) : SelectState :=
  let validFiles := files.filter isValidUpload
  { uploadedImages := st.uploadedImages ++ validFiles
    imageDescriptions := st.imageDescriptions ++ validFiles.map (fun _ => "")
    errorMsg :=
      if validFiles.length ≠ files.length then
        some "Some files were rejected. Please ensure all files are images under 5MB."
      else st.errorMsg }

/-- An object written to the storage backend by `uploadImage`. -/
structure StoredObject where
  path : String
  url : String
  deriving DecidableEq

/-- The outcome of the `uploadStrategyImages` loop: the database and
storage states after the loop (side effects persist even when the loop
throws) and either the collected URLs or the thrown message. -/
structure UploadOutcome where
  db : DB
  storage : List StoredObject
  result : Except String (List String)

/-- The body of `uploadStrategyImages`: strictly sequential; a failing
`uploadImage` call (`uploadFails` indexes the iteration) or a failing
metadata insert throws `Failed to upload image: <name>`, aborting the
remaining files while keeping all side effects so far. -/
def uploadLoop (cfg : Bool) (strategyId : Nat) (versionId : Option Nat)
    (descs : List String) (currentImageCount : Nat)
    (uploadFails : Nat → Bool) (uploadFn : Nat → UploadFile → StoredObject) :
    DB → List StoredObject → List String → Nat → List UploadFile → UploadOutcome
  | db, storage, urls, _, [] => ⟨db, storage, .ok urls⟩
  | db, storage, urls, idx, file :: rest =>
    if uploadFails idx then
      ⟨db, storage, .error ("Failed to upload image: " ++ file.name)⟩
    else
      let result := uploadFn idx file
      let storage' := storage ++ [result]
      let customDescription :=
        jsOr (jsTrim (descs.getD idx ""))
          ("Strategy diagram " ++ toString (currentImageCount + idx + 1) ++
            " for " ++ toString strategyId)
      match createStrategyImage cfg db strategyId result.path "strategy-images"
          result.url (some customDescription) (some (currentImageCount + idx)) versionId with
      | .error _ =>
        ⟨db, storage', .error ("Failed to upload image: " ++ file.name)⟩
      | .ok (db', _) =>
        uploadLoop cfg strategyId versionId descs currentImageCount uploadFails uploadFn
          db' storage' (urls ++ [result.url]) (idx + 1) rest

/-- The image-count base of `uploadStrategyImages` (edit page): the length
of the image list returned by `getStrategy` before the uploads, `|| 0`. -/
def uploadStartCount (db : DB) (strategyId : Nat) : Nat :=
  match getStrategyRpc db strategyId with
  | some r => r.images.length
  | none => 0

/-- `uploadStrategyImages` of the strategy edit page: fetch the current
image count, then upload and record the queued files one at a time. -/
def uploadStrategyImages (cfg : Bool) (db : DB) (storage : List StoredObject)
    (strategyId : Nat) (versionId : Option Nat)
    (uploadedImages : List UploadFile) (descs : List String)
    (uploadFails : Nat → Bool) (uploadFn : Nat → UploadFile → StoredObject) :
    UploadOutcome :=
  uploadLoop cfg strategyId versionId descs (uploadStartCount db strategyId)
    uploadFails uploadFn db storage [] 0 uploadedImages

/-- The copied images of the new version, as computed in the edit page's
`onSubmit` (`images.filter(img => img.version_id === newVersionId)`). -/
def newVersionImages (images : List ImageRow) (newVersionId : Option Nat) :
    List ImageRow :=
  images.filter (fun img => img.version_id == newVersionId)

/-- The heuristic match of `onSubmit`: the first copied image sharing the
original's `storage_path` or `position_in_content`. -/
def findNewVersionImage (copied : List ImageRow) (orig : ImageRow) :
    Option ImageRow :=
  copied.find? (fun img =>
    img.storage_path == orig.storage_path ||
      img.position_in_content == orig.position_in_content)

/-- The per-image decision of `onSubmit`'s description-edit pass: which row
(if any) has its `alt_text` updated, and to what.  Mirrors
`if (originalImage && originalImage.alt_text !== description.trim()) { ... }`:
no match updates the original row; a match is updated only when the trimmed
description is non-empty. -/
def descriptionEditTarget (copied : List ImageRow) (orig : ImageRow)
    (description : String) : Option (Nat × String) :=
  if orig.alt_text == some (jsTrim description) then none
  else
    match findNewVersionImage copied orig with
    | none => some (orig.id, jsTrim description)
    | some nvi =>
      if jsTrim description ≠ "" then some (nvi.id, jsTrim description) else none

/-! ### Basic lemmas about the embedding -/

theorem selectSingle_eq_some {α : Type} {l : List α} {a : α} :
    selectSingle l = some a ↔ l = [a] := by
  cases l with
  | nil => simp [selectSingle]
  | cons x t =>
    cases t with
    | nil => simp [selectSingle]
    | cons y t' => simp [selectSingle]

theorem findStrategy_spec {db : DB} {sid : Nat} {s : StrategyRow}
    (h : findStrategy db sid = some s) : s ∈ db.strategies ∧ s.id = sid := by
  have hf := selectSingle_eq_some.mp h
  have hmem : s ∈ db.strategies.filter (fun x => x.id == sid) := by
    rw [hf]; exact List.mem_singleton.mpr rfl
  have := List.mem_filter.mp hmem
  exact ⟨this.1, by simpa using this.2⟩

theorem findVersion_spec {db : DB} {vid : Nat} {v : VersionRow}
    (h : findVersion db vid = some v) : v ∈ db.versions ∧ v.id = vid := by
  have hf := selectSingle_eq_some.mp h
  have hmem : v ∈ db.versions.filter (fun x => x.id == vid) := by
    rw [hf]; exact List.mem_singleton.mpr rfl
  have := List.mem_filter.mp hmem
  exact ⟨this.1, by simpa using this.2⟩

/-- In a list whose key projection has no duplicates, filtering on the key
of a member returns exactly that member. -/
theorem filter_key_single {α : Type} (f : α → Nat) :
    ∀ (l : List α), (l.map f).Nodup → ∀ a ∈ l,
      l.filter (fun x => f x == f a) = [a] := by
  intro l
  induction l with
  | nil => intro _ a ha; cases ha
  | cons h t ih =>
    intro hnd a ha
    simp only [List.map_cons, List.nodup_cons] at hnd
    obtain ⟨hniq, hnd'⟩ := hnd
    rcases List.mem_cons.mp ha with rfl | hat
    · have hrest : t.filter (fun x => f x == f a) = [] := by
        rw [List.filter_eq_nil_iff]
        intro x hx
        simp only [beq_iff_eq]
        intro hfx
        exact hniq (hfx ▸ List.mem_map_of_mem f hx)
      simp [List.filter_cons, hrest]
    · have hne : (f h == f a) = false := by
        simp only [beq_eq_false_iff_ne]
        intro hfh
        exact hniq (hfh ▸ List.mem_map_of_mem f hat)
      simp only [List.filter_cons, hne, cond_false, if_neg, Bool.false_eq_true,
        not_false_iff]
      exact ih hnd' a hat

/-- Mapping an id-preserving row update commutes with filtering on the id. -/
theorem filter_id_map (g : StrategyRow → StrategyRow)
    (hg : ∀ s, (g s).id = s.id) (l : List StrategyRow) (id : Nat) :
    (l.map g).filter (fun s => s.id == id) =
      (l.filter (fun s => s.id == id)).map g := by
  rw [List.filter_map]
  have : l.filter ((fun s => s.id == id) ∘ g) = l.filter (fun s => s.id == id) := by
    apply List.filter_congr
    intro x _
    simp [Function.comp, hg]
  rw [this]

/-- The version row inserted by `updateStrategy` (proof-side abbreviation
of the row built in the function body). -/
def insertedVersion (db : DB) (id : Nat) (f : UpdateStrategyForm)
    (strat : StrategyRow) : VersionRow :=
  { id := db.nextId, strategy_id := id,
    version_number :=
      match strat.current_version_id with
      | none => 1
      | some vid =>
        match findVersion db vid with
        | none => 1
        | some v => v.version_number + 1,
    title := f.title, description := f.description,
    change_notes := f.change_notes }

/-- Full characterization of a successful `updateStrategy` run. -/
theorem updateStrategy_ok_full (db : DB) (id : Nat) (f : UpdateStrategyForm)
    (strat : StrategyRow) (h : findStrategy db id = some strat) :
    updateStrategy true db id f = .ok
      ({ nextId := db.nextId + 1,
         maps := db.maps,
         strategies := db.strategies.map (fun s =>
           if s.id == id then
             { id := s.id, map_id := s.map_id, title := f.title,
               description := f.description,
               current_version_id := some db.nextId }
           else s),
         versions := db.versions ++ [insertedVersion db id f strat],
         images := db.images },
       { id := strat.id, map_id := strat.map_id,
         current_version_id := some db.nextId,
         title := some f.title, description := some f.description,
         current_version := some (insertedVersion db id f strat),
         images := sortByPosition
           (db.images.filter (fun i => i.strategy_id == some id)) }) := by
  obtain ⟨hmem, hid⟩ := findStrategy_spec h
  have hfilter : db.strategies.filter (fun s => s.id == id) = [strat] :=
    selectSingle_eq_some.mp h
  have hg : ∀ s : StrategyRow,
      ((fun s => if s.id == id then
          ({ id := s.id, map_id := s.map_id, title := f.title,
             description := f.description,
             current_version_id := some db.nextId } : StrategyRow)
        else s) s).id = s.id := by
    intro s; dsimp only; split <;> rfl
  have hfind2 : selectSingle (List.filter (fun s => s.id == id)
      (List.map (fun s => if s.id == id then
          ({ id := s.id, map_id := s.map_id, title := f.title,
             description := f.description,
             current_version_id := some db.nextId } : StrategyRow)
        else s) db.strategies)) =
      some ({ id := strat.id, map_id := strat.map_id, title := f.title,
              description := f.description,
              current_version_id := some db.nextId } : StrategyRow) := by
    rw [filter_id_map _ hg, hfilter]
    simp [hid, selectSingle]
  simp only [updateStrategy]
  split
  · next hcontra => exact absurd hcontra (by decide)
  · simp only [findStrategy] at h
    simp only [findStrategy, h, hfind2]
    rfl

/-! ### Claim C1 -/

/-- Claim C1: a successful `updateStrategy` on an existing strategy inserts
exactly one new version row; its `version_number` is `n + 1` when the
strategy's `current_version_id` points at a readable version row with
number `n`, and defaults to 1 when the pointer is absent or the pointed-at
row cannot be read — in every case the computation completes without
crashing. -/
theorem updateStrategy_next_version_number
    (db : DB) (id : Nat) (f : UpdateStrategyForm) (strat : StrategyRow)
    (h : findStrategy db id = some strat) :
    ∃ db' res, updateStrategy true db id f = .ok (db', res) ∧
      ∃ newV : VersionRow,
        db'.versions = db.versions ++ [newV] ∧
        res.current_version = some newV ∧
        newV.version_number =
          (match strat.current_version_id with
           | none => 1
           | some vid =>
             match findVersion db vid with
             | none => 1
             | some v => v.version_number + 1) := by
  exact ⟨_, _, updateStrategy_ok_full db id f strat h,
    insertedVersion db id f strat, rfl, rfl, rfl⟩

/-- Witness for C1 at a concrete database: a strategy whose current version
has number 3 gets a new version numbered 4. -/
theorem updateStrategy_next_version_number_witness :
    (findStrategy
        { nextId := 10, maps := [], images := [],
          strategies := [{ id := 1, map_id := 0, title := "t", description := "d",
                           current_version_id := some 2 }],
          versions := [{ id := 2, strategy_id := 1, version_number := 3,
                         title := "t", description := "d", change_notes := none }] }
        1 =
      some { id := 1, map_id := 0, title := "t", description := "d",
             current_version_id := some 2 }) ∧
    (∃ db' res,
      updateStrategy true
          { nextId := 10, maps := [], images := [],
            strategies := [{ id := 1, map_id := 0, title := "t", description := "d",
                             current_version_id := some 2 }],
            versions := [{ id := 2, strategy_id := 1, version_number := 3,
                           title := "t", description := "d", change_notes := none }] }
          1 { title := "t2", description := "d2", change_notes := none } =
        .ok (db', res) ∧
      ∃ newV : VersionRow,
        db'.versions =
          [{ id := 2, strategy_id := 1, version_number := 3,
             title := "t", description := "d", change_notes := none }] ++ [newV] ∧
        res.current_version = some newV ∧
        newV.version_number = 4) := by
  refine ⟨by decide, ?_⟩
  have := updateStrategy_next_version_number
    { nextId := 10, maps := [], images := [],
      strategies := [{ id := 1, map_id := 0, title := "t", description := "d",
                       current_version_id := some 2 }],
      versions := [{ id := 2, strategy_id := 1, version_number := 3,
                     title := "t", description := "d", change_notes := none }] }
    1 { title := "t2", description := "d2", change_notes := none }
    { id := 1, map_id := 0, title := "t", description := "d",
      current_version_id := some 2 }
    (by decide)
  simpa using this

/-- Filtering on a key exceeding every key in the list yields nothing. -/
theorem filter_key_lt_nil {α : Type} (f : α → Nat) (l : List α) (n : Nat)
    (h : ∀ a ∈ l, f a < n) : l.filter (fun x => f x == n) = [] := by
  rw [List.filter_eq_nil_iff]
  intro a ha
  simp only [beq_iff_eq]
  exact Nat.ne_of_lt (h a ha)

/-- The initial version row inserted by `createStrategy` (proof-side
abbreviation of the row built in the function body). -/
def initialVersion (db : DB) (f : CreateStrategyForm) : VersionRow :=
  { id := db.nextId + 1, strategy_id := db.nextId, version_number := 1,
    title := f.title, description := f.description,
    change_notes := some (jsOrOpt f.change_notes "Initial version") }

/-- Full characterization of a successful `createStrategy` run. -/
theorem createStrategy_ok_full (db : DB) (f : CreateStrategyForm)
    (hS : ∀ s ∈ db.strategies, s.id < db.nextId)
    (hV : ∀ v ∈ db.versions, v.id < db.nextId) :
    createStrategy true db f = .ok
      ({ nextId := db.nextId + 1 + 1,
         maps := bumpStrategyCount db.maps f.map_id 1,
         strategies := (db.strategies ++
             [({ id := db.nextId, map_id := f.map_id, title := f.title,
                 description := f.description,
                 current_version_id := none } : StrategyRow)]).map (fun s =>
           if s.id == db.nextId then
             ({ id := s.id, map_id := s.map_id, title := s.title,
                description := s.description,
                current_version_id := some (db.nextId + 1) } : StrategyRow)
           else s),
         versions := db.versions ++ [initialVersion db f],
         images := db.images },
       { id := db.nextId, map_id := f.map_id,
         current_version_id := some (db.nextId + 1),
         title := some f.title, description := some f.description,
         current_version := some (initialVersion db f),
         images := [] }) := by
  have hnilS : db.strategies.filter (fun s => s.id == db.nextId) = [] :=
    filter_key_lt_nil _ _ _ hS
  have hnilV : db.versions.filter (fun v => v.id == db.nextId + 1) = [] :=
    filter_key_lt_nil _ _ _ (fun v hv => Nat.lt_succ_of_lt (hV v hv))
  have hg : ∀ s : StrategyRow,
      ((fun s => if s.id == db.nextId then
          ({ id := s.id, map_id := s.map_id, title := s.title,
             description := s.description,
             current_version_id := some (db.nextId + 1) } : StrategyRow)
        else s) s).id = s.id := by
    intro s; dsimp only; split <;> rfl
  have h1 : selectSingle (List.filter (fun s => s.id == db.nextId)
      (List.map (fun s => if s.id == db.nextId then
          ({ id := s.id, map_id := s.map_id, title := s.title,
             description := s.description,
             current_version_id := some (db.nextId + 1) } : StrategyRow)
        else s)
        (db.strategies ++
          [{ id := db.nextId, map_id := f.map_id, title := f.title,
             description := f.description, current_version_id := none }]))) =
      some { id := db.nextId, map_id := f.map_id, title := f.title,
             description := f.description,
             current_version_id := some (db.nextId + 1) } := by
    rw [filter_id_map _ hg, List.filter_append, hnilS]
    simp [selectSingle]
  have h2 : selectSingle (List.filter (fun v => v.id == db.nextId + 1)
      (db.versions ++
        [{ id := db.nextId + 1, strategy_id := db.nextId, version_number := 1,
           title := f.title, description := f.description,
           change_notes := some (jsOrOpt f.change_notes "Initial version") }])) =
      some { id := db.nextId + 1, strategy_id := db.nextId, version_number := 1,
             title := f.title, description := f.description,
             change_notes := some (jsOrOpt f.change_notes "Initial version") } := by
    rw [List.filter_append, hnilV]
    simp [selectSingle]
  simp only [createStrategy]
  split
  · next hcontra => exact absurd hcontra (by decide)
  · simp only [findStrategy, findVersion, h1, h2]
    rfl

/-! ### Claim C10 -/

/-- Claim C10: a successful `createStrategy` inserts the initial version
row with `version_number` fixed at 1 — whatever version rows already exist
in the database — and returns a result whose `current_version` is that
freshly inserted row and whose image list is empty. -/
theorem createStrategy_initial_version (db : DB) (hF : Fresh db)
    (f : CreateStrategyForm) :
    ∃ db' res, createStrategy true db f = .ok (db', res) ∧
      ∃ v : VersionRow,
        db'.versions = db.versions ++ [v] ∧
        v.version_number = 1 ∧
        res.current_version = some v ∧
        res.images = [] := by
  obtain ⟨-, hS, hV, -, -, -, -, -, -⟩ := hF
  exact ⟨_, _, createStrategy_ok_full db f hS hV,
    initialVersion db f, rfl, rfl, rfl, rfl⟩

/-- Witness for C10: running `createStrategy` on an empty (but
well-formed) database yields version number 1, that version as
`current_version`, and an empty image list. -/
theorem createStrategy_initial_version_witness :
    Fresh { nextId := 0, maps := [], strategies := [], versions := [],
            images := [] } ∧
    (∃ db' res,
      createStrategy true
          { nextId := 0, maps := [], strategies := [], versions := [],
            images := [] }
          { map_id := 7, title := "Rush A", description := "plan",
            change_notes := none } =
        .ok (db', res) ∧
      ∃ v : VersionRow,
        db'.versions = [] ++ [v] ∧
        v.version_number = 1 ∧
        res.current_version = some v ∧
        res.images = []) :=
  ⟨by decide,
    createStrategy_initial_version
      { nextId := 0, maps := [], strategies := [], versions := [], images := [] }
      (by decide)
      { map_id := 7, title := "Rush A", description := "plan",
        change_notes := none }⟩

/-! ### Claim C2: the versioning invariant under sequential edits -/

/-- The expected version numbers after reaching version `k`: `[1, …, k]`. -/
def versionNumbers (k : Nat) : List Nat :=
  (List.range k).map (fun i => i + 1)

theorem versionNumbers_succ (k : Nat) :
    versionNumbers (k + 1) = versionNumbers k ++ [k + 1] := by
  simp [versionNumbers, List.range_succ]

/-- The running invariant of the versioning protocol: the strategy exists,
its `current_version_id` points at a readable version row of its own with
number `k`, and its version rows carry exactly the numbers `1, …, k`. -/
def CurrentInv (db : DB) (sid k : Nat) : Prop :=
  ∃ s, findStrategy db sid = some s ∧
    ∃ vid v, s.current_version_id = some vid ∧ findVersion db vid = some v ∧
      v.strategy_id = sid ∧ v.version_number = k ∧
      ((strategyVersionsOf db sid).map (fun v => v.version_number)).Perm
        (versionNumbers k)

/-- One `updateStrategy` step preserves well-formedness and advances the
versioning invariant from `k` to `k + 1`. -/
theorem updateStrategy_step (db : DB) (sid k : Nat) (f : UpdateStrategyForm)
    (hF : Fresh db) (hI : CurrentInv db sid k) :
    ∃ db' res, updateStrategy true db sid f = .ok (db', res) ∧
      Fresh db' ∧ CurrentInv db' sid (k + 1) := by
  obtain ⟨hM, hS, hV, hIm, hMnd, hSnd, hVnd, hImnd, hVs⟩ := hF
  obtain ⟨s, hs, vid, v, hcv, hfv, hvsid, hvnum, hperm⟩ := hI
  obtain ⟨hsmem, hsid⟩ := findStrategy_spec hs
  have hEq := updateStrategy_ok_full db sid f s hs
  refine ⟨_, _, hEq, ?_, ?_⟩
  · -- Freshness of the post-state
    refine ⟨?_, ?_, ?_, ?_, ?_, ?_, ?_, ?_, ?_⟩
    · intro m hm; exact Nat.lt_succ_of_lt (hM m hm)
    · intro s' hs'
      obtain ⟨x, hx, rfl⟩ := List.mem_map.mp hs'
      have : x.id < db.nextId := hS x hx
      dsimp only
      split <;> exact Nat.lt_succ_of_lt this
    · intro v' hv'
      rcases List.mem_append.mp hv' with hv' | hv'
      · exact Nat.lt_succ_of_lt (hV v' hv')
      · rcases List.mem_singleton.mp hv' with rfl
        exact Nat.lt_succ_self _
    · intro i hi; exact Nat.lt_succ_of_lt (hIm i hi)
    · exact hMnd
    · have : ∀ x : StrategyRow,
          ((fun s => if s.id == sid then
              ({ id := s.id, map_id := s.map_id, title := f.title,
                 description := f.description,
                 current_version_id := some db.nextId } : StrategyRow)
            else s) x).id = x.id := by
        intro x; dsimp only; split <;> rfl
      rw [List.map_map]
      have hfuneq : ((fun s : StrategyRow => s.id) ∘ (fun s =>
          if s.id == sid then
            ({ id := s.id, map_id := s.map_id, title := f.title,
               description := f.description,
               current_version_id := some db.nextId } : StrategyRow)
          else s)) = (fun s : StrategyRow => s.id) := by
        funext x; exact this x
      rw [hfuneq]
      exact hSnd
    · rw [List.map_append]
      rw [List.nodup_append]
      refine ⟨hVnd, List.nodup_singleton _, ?_⟩
      intro a ha hb
      simp only [List.map_singleton, List.mem_singleton] at hb
      obtain ⟨x, hx, rfl⟩ := List.mem_map.mp ha
      have hlt := hV x hx
      simp only [insertedVersion] at hb
      omega
    · exact hImnd
    · intro v' hv'
      rcases List.mem_append.mp hv' with hv' | hv'
      · exact Nat.lt_succ_of_lt (hVs v' hv')
      · rcases List.mem_singleton.mp hv' with rfl
        simpa [insertedVersion] using Nat.lt_succ_of_lt (hsid ▸ hS s hsmem)
  · -- The invariant at k + 1
    have hg : ∀ x : StrategyRow,
        ((fun s => if s.id == sid then
            ({ id := s.id, map_id := s.map_id, title := f.title,
               description := f.description,
               current_version_id := some db.nextId } : StrategyRow)
          else s) x).id = x.id := by
      intro x; dsimp only; split <;> rfl
    have hfilter : db.strategies.filter (fun x => x.id == sid) = [s] :=
      selectSingle_eq_some.mp hs
    refine ⟨{ id := s.id, map_id := s.map_id, title := f.title,
              description := f.description,
              current_version_id := some db.nextId }, ?_,
            db.nextId, insertedVersion db sid f s, rfl, ?_, rfl, ?_, ?_⟩
    · show selectSingle _ = _
      rw [filter_id_map _ hg, hfilter]
      simp [hsid, selectSingle]
    · show selectSingle _ = _
      have hnil : db.versions.filter (fun x => x.id == db.nextId) = [] :=
        filter_key_lt_nil _ _ _ hV
      rw [List.filter_append, hnil]
      simp [selectSingle, insertedVersion]
    · simp only [insertedVersion, hcv, hfv, hvnum]
    · show ((List.filter _ (db.versions ++ [insertedVersion db sid f s])).map _).Perm _
      rw [List.filter_append]
      have hnew : List.filter (fun v => v.strategy_id == sid)
          [insertedVersion db sid f s] = [insertedVersion db sid f s] := by
        simp [insertedVersion]
      rw [hnew, List.map_append, versionNumbers_succ]
      simp only [List.map_singleton]
      have hlast : [(insertedVersion db sid f s).version_number] = [k + 1] := by
        simp only [insertedVersion, hcv, hfv, hvnum]
      rw [hlast]
      exact hperm.append_right [k + 1]

/-- Sequential edits via `updateStrategy`, as performed by repeated
submissions of the edit form. -/
def applyEdits (sid : Nat) : DB → List UpdateStrategyForm → Except DbError DB
  | db, [] => .ok db
  | db, f :: fs =>
    match updateStrategy true db sid f with
    | .error e => .error e
    | .ok (db', _) => applyEdits sid db' fs

theorem applyEdits_inv (sid : Nat) (forms : List UpdateStrategyForm) :
    ∀ db k, Fresh db → CurrentInv db sid k →
      ∃ db', applyEdits sid db forms = .ok db' ∧ Fresh db' ∧
        CurrentInv db' sid (k + forms.length) := by
  induction forms with
  | nil =>
    intro db k hF hI
    exact ⟨db, rfl, hF, by simpa using hI⟩
  | cons f fs ih =>
    intro db k hF hI
    obtain ⟨db1, res, hEq, hF1, hI1⟩ := updateStrategy_step db sid k f hF hI
    obtain ⟨db2, hEq2, hF2, hI2⟩ := ih db1 (k + 1) hF1 hI1
    refine ⟨db2, ?_, hF2, ?_⟩
    · simp [applyEdits, hEq, hEq2]
    · have harith : k + 1 + fs.length = k + (fs.length + 1) := by omega
      rw [harith] at hI2
      simpa using hI2

/-- `createStrategy` establishes well-formedness and the invariant at 1
for the freshly allocated strategy. -/
theorem createStrategy_base (db : DB) (f : CreateStrategyForm) (hF : Fresh db) :
    ∃ db' res, createStrategy true db f = .ok (db', res) ∧
      res.id = db.nextId ∧ Fresh db' ∧ CurrentInv db' db.nextId 1 := by
  obtain ⟨hM, hS, hV, hIm, hMnd, hSnd, hVnd, hImnd, hVs⟩ := hF
  have hEq := createStrategy_ok_full db f hS hV
  refine ⟨_, _, hEq, rfl, ?_, ?_⟩
  · -- Freshness of the post-state
    refine ⟨?_, ?_, ?_, ?_, ?_, ?_, ?_, ?_, ?_⟩
    · intro m hm
      simp only [bumpStrategyCount] at hm
      obtain ⟨x, hx, rfl⟩ := List.mem_map.mp hm
      have : x.id < db.nextId := hM x hx
      dsimp only
      split <;> exact Nat.lt_succ_of_lt (Nat.lt_succ_of_lt this)
    · intro s' hs'
      obtain ⟨x, hx, rfl⟩ := List.mem_map.mp hs'
      have hxlt : x.id < db.nextId + 1 := by
        rcases List.mem_append.mp hx with hx | hx
        · exact Nat.lt_succ_of_lt (hS x hx)
        · rcases List.mem_singleton.mp hx with rfl
          exact Nat.lt_succ_self _
      dsimp only
      split <;> exact Nat.lt_succ_of_lt hxlt
    · intro v' hv'
      rcases List.mem_append.mp hv' with hv' | hv'
      · exact Nat.lt_succ_of_lt (Nat.lt_succ_of_lt (hV v' hv'))
      · rcases List.mem_singleton.mp hv' with rfl
        exact Nat.lt_succ_self _
    · intro i hi; exact Nat.lt_succ_of_lt (Nat.lt_succ_of_lt (hIm i hi))
    · simp only [bumpStrategyCount]
      have hfuneq : ((fun m : MapRow => m.id) ∘ (fun m =>
          if m.id == f.map_id then
            { m with strategy_count := Int.toNat (m.strategy_count + 1) }
          else m)) = (fun m : MapRow => m.id) := by
        funext x; simp only [Function.comp_apply]; split <;> rfl
      rw [List.map_map, hfuneq]
      exact hMnd
    · have hfuneq : ((fun s : StrategyRow => s.id) ∘ (fun s =>
          if s.id == db.nextId then
            ({ id := s.id, map_id := s.map_id, title := s.title,
               description := s.description,
               current_version_id := some (db.nextId + 1) } : StrategyRow)
          else s)) = (fun s : StrategyRow => s.id) := by
        funext x; simp only [Function.comp_apply]; split <;> rfl
      rw [List.map_map, hfuneq, List.map_append, List.nodup_append]
      refine ⟨hSnd, List.nodup_singleton _, ?_⟩
      intro a ha hb
      simp only [List.map_singleton, List.mem_singleton] at hb
      obtain ⟨x, hx, rfl⟩ := List.mem_map.mp ha
      have hlt := hS x hx
      have hb' : x.id = db.nextId := hb
      omega
    · rw [List.map_append, List.nodup_append]
      refine ⟨hVnd, List.nodup_singleton _, ?_⟩
      intro a ha hb
      simp only [List.map_singleton, List.mem_singleton] at hb
      obtain ⟨x, hx, rfl⟩ := List.mem_map.mp ha
      have hlt := hV x hx
      have hb' : x.id = db.nextId + 1 := hb
      omega
    · exact hImnd
    · intro v' hv'
      rcases List.mem_append.mp hv' with hv' | hv'
      · exact Nat.lt_succ_of_lt (Nat.lt_succ_of_lt (hVs v' hv'))
      · rcases List.mem_singleton.mp hv' with rfl
        show db.nextId < db.nextId + 1 + 1
        omega
  · -- The invariant at 1
    have hg : ∀ x : StrategyRow,
        ((fun s => if s.id == db.nextId then
            ({ id := s.id, map_id := s.map_id, title := s.title,
               description := s.description,
               current_version_id := some (db.nextId + 1) } : StrategyRow)
          else s) x).id = x.id := by
      intro x; dsimp only; split <;> rfl
    have hnilS : db.strategies.filter (fun x => x.id == db.nextId) = [] :=
      filter_key_lt_nil _ _ _ hS
    have hnilV : db.versions.filter (fun x => x.id == db.nextId + 1) = [] :=
      filter_key_lt_nil _ _ _ (fun x hx => Nat.lt_succ_of_lt (hV x hx))
    have hnilVs : db.versions.filter (fun x => x.strategy_id == db.nextId) = [] :=
      filter_key_lt_nil _ _ _ hVs
    refine ⟨{ id := db.nextId, map_id := f.map_id, title := f.title,
              description := f.description,
              current_version_id := some (db.nextId + 1) }, ?_,
            db.nextId + 1, initialVersion db f, rfl, ?_, rfl, rfl, ?_⟩
    · show selectSingle _ = _
      rw [filter_id_map _ hg, List.filter_append, hnilS]
      simp [selectSingle]
    · show selectSingle _ = _
      rw [List.filter_append, hnilV]
      simp [selectSingle, initialVersion]
    · show ((List.filter _ (db.versions ++ [initialVersion db f])).map _).Perm _
      rw [List.filter_append, hnilVs]
      have hfil : List.filter (fun v => v.strategy_id == db.nextId)
          [initialVersion db f] = [initialVersion db f] := by
        simp [initialVersion]
      rw [List.nil_append, hfil, List.map_singleton]
      have h1 : (initialVersion db f).version_number = 1 := rfl
      have h2 : versionNumbers 1 = [1] := rfl
      rw [h1, h2]

/-- Claim C2: starting from any well-formed database, `createStrategy`
followed by `N` sequential successful `updateStrategy` calls leaves
exactly `N + 1` version rows for the strategy, carrying the version
numbers `1, …, N + 1`, and the strategy's `current_version_id` is the
identity of the unique version row with the highest number — the row
inserted by the last operation. -/
theorem versioning_protocol_invariant (db0 : DB) (hF : Fresh db0)
    (cform : CreateStrategyForm) (forms : List UpdateStrategyForm) :
    ∃ db1 res, createStrategy true db0 cform = .ok (db1, res) ∧
      ∃ db2, applyEdits res.id db1 forms = .ok db2 ∧
        (strategyVersionsOf db2 res.id).length = forms.length + 1 ∧
        ((strategyVersionsOf db2 res.id).map (fun v => v.version_number)).Perm
          (versionNumbers (forms.length + 1)) ∧
        ∃ s v, findStrategy db2 res.id = some s ∧
          v ∈ strategyVersionsOf db2 res.id ∧
          s.current_version_id = some v.id ∧
          v.version_number = forms.length + 1 ∧
          (∀ w ∈ strategyVersionsOf db2 res.id,
            w.version_number ≤ forms.length + 1) ∧
          (∀ w ∈ strategyVersionsOf db2 res.id,
            w.version_number = forms.length + 1 → w = v) := by
  obtain ⟨db1, res, hEq1, hResId, hF1, hI1⟩ := createStrategy_base db0 cform hF
  obtain ⟨db2, hEq2, hF2, hI2⟩ := applyEdits_inv db0.nextId forms db1 1 hF1 hI1
  rw [← hResId] at hEq2 hI2
  obtain ⟨s, hs, vid, v, hcv, hfv, hvsid, hvnum, hperm⟩ := hI2
  obtain ⟨hvmem, hvid⟩ := findVersion_spec hfv
  have hvin : v ∈ strategyVersionsOf db2 res.id := by
    rw [strategyVersionsOf]
    exact List.mem_filter.mpr ⟨hvmem, by simp [hvsid]⟩
  have hnum : 1 + forms.length = forms.length + 1 := by omega
  rw [hnum] at hvnum hperm
  have hnodupNums :
      ((strategyVersionsOf db2 res.id).map (fun v => v.version_number)).Nodup := by
    rw [List.Perm.nodup_iff hperm]
    apply List.Nodup.map
    · intro a b hab
      have hab' : a + 1 = b + 1 := hab
      omega
    · exact List.nodup_range _
  have hbound : ∀ w ∈ strategyVersionsOf db2 res.id,
      w.version_number ≤ forms.length + 1 := by
    intro w hw
    have hmemmap : w.version_number ∈
        ((strategyVersionsOf db2 res.id).map (fun v => v.version_number)) :=
      List.mem_map_of_mem _ hw
    have := hperm.mem_iff.mp hmemmap
    simp only [versionNumbers, List.mem_map, List.mem_range] at this
    omega
  refine ⟨db1, res, hEq1, db2, hEq2, ?_, hperm, s, v, hs, hvin,
    hvid ▸ hcv, hvnum, hbound, ?_⟩
  · have := hperm.length_eq
    simpa [versionNumbers] using this
  · intro w hw hwnum
    exact List.inj_on_of_nodup_map hnodupNums hw hvin (by rw [hwnum, hvnum])

/-- Witness for C2: one create followed by one edit on an empty database
gives two version rows numbered 1 and 2, with the pointer on number 2. -/
theorem versioning_protocol_invariant_witness :
    Fresh { nextId := 0, maps := [], strategies := [], versions := [],
            images := [] } ∧
    (∃ db1 res,
      createStrategy true
          { nextId := 0, maps := [], strategies := [], versions := [],
            images := [] }
          { map_id := 5, title := "t", description := "d",
            change_notes := none } =
        .ok (db1, res) ∧
      ∃ db2, applyEdits res.id db1
          [{ title := "t2", description := "d2", change_notes := some "n" }] =
          .ok db2 ∧
        (strategyVersionsOf db2 res.id).length = 2 ∧
        ((strategyVersionsOf db2 res.id).map (fun v => v.version_number)).Perm
          (versionNumbers 2) ∧
        ∃ s v, findStrategy db2 res.id = some s ∧
          v ∈ strategyVersionsOf db2 res.id ∧
          s.current_version_id = some v.id ∧
          v.version_number = 2 ∧
          (∀ w ∈ strategyVersionsOf db2 res.id, w.version_number ≤ 2) ∧
          (∀ w ∈ strategyVersionsOf db2 res.id,
            w.version_number = 2 → w = v)) :=
  ⟨by decide,
    versioning_protocol_invariant
      { nextId := 0, maps := [], strategies := [], versions := [], images := [] }
      (by decide)
      { map_id := 5, title := "t", description := "d", change_notes := none }
      [{ title := "t2", description := "d2", change_notes := some "n" }]⟩

/-! ### Claims C3 and C4: the copy-forward image protocol -/

/-- The copy loop only ever appends to the image table. -/
theorem copyLoop_images (sid : Nat) (toV : Option Nat) (fails : Nat → Bool) :
    ∀ (l : List ImageRow) (db : DB) (idx : Nat),
      ∃ tail, (copyLoop sid toV fails db idx l).1.images = db.images ++ tail := by
  intro l
  induction l with
  | nil => intro db idx; exact ⟨[], by simp [copyLoop]⟩
  | cons image rest ih =>
    intro db idx
    by_cases hfail : fails idx
    · obtain ⟨tail, htail⟩ := ih db (idx + 1)
      exact ⟨tail, by simp [copyLoop, hfail, htail]⟩
    · obtain ⟨tail, htail⟩ :=
        ih (insertImage db (copiedRow db sid toV image)) (idx + 1)
      refine ⟨[copiedRow db sid toV image] ++ tail, ?_⟩
      simp only [copyLoop, hfail, if_neg, Bool.false_eq_true, not_false_iff]
      rw [htail]
      simp [insertImage]

/-- Every row returned by the copy loop is present in the final image table
and is a field-preserving copy (with the target version) of a source row. -/
theorem copyLoop_spec (sid : Nat) (toV : Option Nat) (fails : Nat → Bool) :
    ∀ (l : List ImageRow) (db : DB) (idx : Nat),
      ∀ c ∈ (copyLoop sid toV fails db idx l).2,
        c ∈ (copyLoop sid toV fails db idx l).1.images ∧
        ∃ src ∈ l,
          c.storage_path = src.storage_path ∧
          c.bucket_name = src.bucket_name ∧
          c.url = src.url ∧
          c.alt_text = src.alt_text ∧
          c.position_in_content = src.position_in_content ∧
          c.version_id = toV := by
  intro l
  induction l with
  | nil => intro db idx c hc; simp [copyLoop] at hc
  | cons image rest ih =>
    intro db idx c hc
    by_cases hfail : fails idx
    · simp only [copyLoop, hfail, if_pos] at hc ⊢
      obtain ⟨hmem, src, hsrc, hfields⟩ := ih db (idx + 1) c hc
      exact ⟨hmem, src, List.mem_cons_of_mem _ hsrc, hfields⟩
    · simp only [copyLoop, hfail, if_neg, Bool.false_eq_true, not_false_iff] at hc ⊢
      rcases List.mem_cons.mp hc with rfl | hc'
      · refine ⟨?_, image, List.mem_cons_self _ _, rfl, rfl, rfl, rfl, rfl, rfl⟩
        obtain ⟨tail, htail⟩ := copyLoop_images sid toV fails rest
          (insertImage db (copiedRow db sid toV image)) (idx + 1)
        rw [htail]
        refine List.mem_append_left _ ?_
        show copiedRow db sid toV image ∈ (insertImage db _).images
        exact List.mem_append_right _ (List.mem_singleton.mpr rfl)
      · obtain ⟨hmem, src, hsrc, hfields⟩ :=
          ih (insertImage db (copiedRow db sid toV image)) (idx + 1) c hc'
        exact ⟨hmem, src, List.mem_cons_of_mem _ hsrc, hfields⟩

/-- The rows returned by the copy loop are exactly the copies of the
sources at non-failing iteration indices, in order. -/
theorem copyLoop_successes (sid : Nat) (toV : Option Nat) (fails : Nat → Bool) :
    ∀ (l : List ImageRow) (db : DB) (idx : Nat),
      ((copyLoop sid toV fails db idx l).2).map
          (fun c => (c.storage_path, c.url, c.position_in_content)) =
        ((List.enumFrom idx l).filter (fun p => !fails p.1)).map
          (fun p => (p.2.storage_path, p.2.url, p.2.position_in_content)) := by
  intro l
  induction l with
  | nil => intro db idx; simp [copyLoop]
  | cons image rest ih =>
    intro db idx
    have henum : List.enumFrom idx (image :: rest) =
        (idx, image) :: List.enumFrom (idx + 1) rest := rfl
    by_cases hfail : fails idx
    · simp only [copyLoop, hfail, if_pos, henum, List.filter_cons,
        Bool.not_true]
      rw [ih db (idx + 1)]
      simp
    · simp only [copyLoop, hfail, if_neg, Bool.false_eq_true, not_false_iff,
        henum, List.filter_cons, Bool.not_false]
      simp only [List.map_cons]
      rw [ih (insertImage db (copiedRow db sid toV image)) (idx + 1)]
      simp [copiedRow]

/-- Claim C3: `copyImagesToVersion` selects as sources exactly the
strategy's image rows whose `version_id` equals `fromVersionId` (the rows
with a null `version_id` when no source version is given), and every
successfully copied row preserves `storage_path`, `bucket_name`, `url`,
`alt_text` and `position_in_content` of its source while its `version_id`
is set to `toVersionId`. -/
theorem copyImagesToVersion_selection_and_fields
    (db : DB) (sid : Nat) (fromV toV : Option Nat) (insertFails : Nat → Bool) :
    ∃ db' copied,
      copyImagesToVersion true false insertFails db sid fromV toV =
        .ok (db', copied) ∧
      (∀ img, img ∈ selectSourceImages db sid fromV ↔
        (img ∈ db.images ∧ img.strategy_id = some sid ∧
          img.version_id = fromV)) ∧
      (∀ c ∈ copied, c ∈ db'.images ∧
        ∃ src ∈ selectSourceImages db sid fromV,
          c.storage_path = src.storage_path ∧
          c.bucket_name = src.bucket_name ∧
          c.url = src.url ∧
          c.alt_text = src.alt_text ∧
          c.position_in_content = src.position_in_content ∧
          c.version_id = toV) := by
  refine ⟨_, _, rfl, ?_, ?_⟩
  · intro img
    cases fromV with
    | none =>
      simp [selectSourceImages, sortByPosition, List.mem_insertionSort,
        List.mem_filter, Bool.and_eq_true, beq_iff_eq, and_assoc]
    | some v =>
      simp [selectSourceImages, sortByPosition, List.mem_insertionSort,
        List.mem_filter, Bool.and_eq_true, beq_iff_eq, and_assoc]
  · intro c hc
    exact copyLoop_spec sid toV insertFails
      (selectSourceImages db sid fromV) db 0 c hc

/-- Claim C4: an individual insert failure inside `copyImagesToVersion`
neither aborts the batch nor makes the call throw — the returned list is
exactly the copies made at the non-failing iterations, later sources
included — while a failure of the initial selection query fails the whole
call. -/
theorem copyImagesToVersion_partial_failure
    (db : DB) (sid : Nat) (fromV toV : Option Nat) (insertFails : Nat → Bool) :
    (∃ db' copied,
      copyImagesToVersion true false insertFails db sid fromV toV =
        .ok (db', copied) ∧
      copied.map (fun c => (c.storage_path, c.url, c.position_in_content)) =
        ((List.enumFrom 0 (selectSourceImages db sid fromV)).filter
            (fun p => !insertFails p.1)).map
          (fun p => (p.2.storage_path, p.2.url, p.2.position_in_content))) ∧
    copyImagesToVersion true true insertFails db sid fromV toV =
      .error DbError.backendFailure :=
  ⟨⟨_, _, rfl, copyLoop_successes sid toV insertFails
      (selectSourceImages db sid fromV) db 0⟩, rfl⟩

/-! ### Claim C5: the aggregated path versus the fallback path -/

/-- A concrete database exhibiting the difference between the two
`getStrategy` paths: one strategy with a legacy row title and a current
version. -/
def dbC5 : DB :=
  { nextId := 10, maps := [],
    strategies := [{ id := 1, map_id := 0, title := "Rush A",
                     description := "plan", current_version_id := some 2 }],
    versions := [{ id := 2, strategy_id := 1, version_number := 1,
                   title := "Rush A v1", description := "desc v1",
                   change_notes := none }],
    images := [] }

/-- What the aggregated RPC path returns on `dbC5`: no top-level title or
description fields. -/
def rpcC5 : StrategyFetchResult :=
  { id := 1, map_id := 0, current_version_id := some 2,
    title := none, description := none,
    current_version := some { id := 2, strategy_id := 1, version_number := 1,
                              title := "Rush A v1", description := "desc v1",
                              change_notes := none },
    images := [] }

/-- What the fallback path returns on `dbC5`: top-level title and
description synthesized from the legacy strategy-row columns. -/
def fbC5 : StrategyFetchResult :=
  { id := 1, map_id := 0, current_version_id := some 2,
    title := some "Rush A", description := some "plan",
    current_version := some { id := 2, strategy_id := 1, version_number := 1,
                              title := "Rush A v1", description := "desc v1",
                              change_notes := none },
    images := [] }

/-- Counterexample to C5 as stated: on `dbC5` the two paths succeed but
return different `title` (and `description`) fields in the
`StrategyWithVersion` — the RPC JSON omits the top-level fields entirely
while the fallback fills them from the strategy row. -/
theorem getStrategy_paths_title_counterexample :
    getStrategyRpc dbC5 1 = some rpcC5 ∧
    getStrategyFallback dbC5 1 = .ok fbC5 ∧
    rpcC5.title ≠ fbC5.title ∧
    rpcC5.description ≠ fbC5.description ∧
    rpcC5.title = none ∧
    fbC5.title = some "Rush A" :=
  ⟨rfl, rfl, by decide, by decide, rfl, rfl⟩

/-- Claim C5 (amended): whenever the aggregated RPC path and the fallback
path of `getStrategy` both succeed, they agree on the current version row
(hence on the displayed title and description, which are sourced from it)
and on the image set up to ordering; but the top-level `title` and
`description` fields disagree in general — the RPC path omits them
(`none`) while the fallback synthesizes them. -/
theorem getStrategy_paths_agree_on_version_and_images
    (db : DB) (sid : Nat) (r f : StrategyFetchResult)
    (hr : getStrategyRpc db sid = some r)
    (hf : getStrategyFallback db sid = .ok f) :
    r.current_version = f.current_version ∧
    r.images.Perm f.images ∧
    r.title = none ∧
    r.description = none := by
  obtain ⟨s, hs, hrr⟩ := Option.map_eq_some'.mp hr
  obtain ⟨-, hsid⟩ := findStrategy_spec hs
  simp only [getStrategyFallback, hs] at hf
  have hff := Except.ok.inj hf
  subst hff
  subst hrr
  refine ⟨?_, ?_, rfl, rfl⟩
  · show (rpcResult db s).current_version = _
    cases hcv : s.current_version_id with
    | none => simp [rpcResult, hcv]
    | some vid => simp [rpcResult, hcv]
  · show (rpcResult db s).images.Perm (imagesOf db sid)
    simp only [rpcResult, sortByPosition, hsid]
    exact List.perm_insertionSort _ _

/-- Witness for the amended C5, applying it on `dbC5`. -/
theorem getStrategy_paths_agree_witness :
    getStrategyRpc dbC5 1 = some rpcC5 ∧
    getStrategyFallback dbC5 1 = .ok fbC5 ∧
    (rpcC5.current_version = fbC5.current_version ∧
      rpcC5.images.Perm fbC5.images ∧
      rpcC5.title = none ∧
      rpcC5.description = none) :=
  ⟨rfl, rfl,
    getStrategy_paths_agree_on_version_and_images dbC5 1 rpcC5 fbC5 rfl rfl⟩

/-! ### Claim C6: the description-edit matching heuristic -/

/-- An original image row whose description is being edited. -/
def origC6 : ImageRow :=
  { id := 10, strategy_id := some 1, version_id := some 2,
    storage_path := "p.png", bucket_name := "strategy-images",
    url := "u", alt_text := some "old", position_in_content := 0 }

/-- The copy of `origC6` in the new version (same `storage_path`). -/
def copyC6 : ImageRow :=
  { id := 11, strategy_id := some 1, version_id := some 3,
    storage_path := "p.png", bucket_name := "strategy-images",
    url := "u", alt_text := some "old", position_in_content := 0 }

/-- Counterexample to C6 as stated: editing the description to the empty
string (an edit, since the stored alt text is `"old"`) finds the copied
image in the new version, yet updates nothing — neither the copied row nor
the original — because the update of a matched copy is guarded by the
trimmed description being non-empty. -/
theorem descriptionEdit_empty_match_counterexample :
    descriptionEditTarget (newVersionImages [origC6, copyC6] (some 3)) origC6 ""
      = none ∧
    findNewVersionImage (newVersionImages [origC6, copyC6] (some 3)) origC6
      = some copyC6 ∧
    origC6.alt_text ≠ some (jsTrim "") :=
  ⟨rfl, rfl, by decide⟩

/-- Claim C6 (amended): for an edited description (stored alt text differs
from the trimmed submission), the system searches the new version's copied
images for one matching the original's `storage_path` or
`position_in_content`; if one is found, that copied row is updated —
provided the trimmed description is non-empty, an empty edit with a match
updating nothing — and if none is found the original row is updated
(including with an empty description). -/
theorem descriptionEdit_target_resolution
    (imgs : List ImageRow) (newVid : Option Nat) (orig : ImageRow)
    (description : String)
    (hedit : orig.alt_text ≠ some (jsTrim description)) :
    (∀ nvi, findNewVersionImage (newVersionImages imgs newVid) orig = some nvi →
      nvi ∈ imgs ∧
      nvi.version_id = newVid ∧
      (nvi.storage_path = orig.storage_path ∨
        nvi.position_in_content = orig.position_in_content) ∧
      (jsTrim description ≠ "" →
        descriptionEditTarget (newVersionImages imgs newVid) orig description =
          some (nvi.id, jsTrim description)) ∧
      (jsTrim description = "" →
        descriptionEditTarget (newVersionImages imgs newVid) orig description =
          none)) ∧
    (findNewVersionImage (newVersionImages imgs newVid) orig = none →
      descriptionEditTarget (newVersionImages imgs newVid) orig description =
        some (orig.id, jsTrim description)) := by
  have hbeq : (orig.alt_text == some (jsTrim description)) = false := by
    simp only [beq_eq_false_iff_ne]
    exact hedit
  constructor
  · intro nvi hfind
    have hmem : nvi ∈ newVersionImages imgs newVid :=
      List.mem_of_find?_eq_some hfind
    have hmem' := List.mem_filter.mp hmem
    have hpred := List.find?_some hfind
    refine ⟨hmem'.1, by simpa using hmem'.2, ?_, ?_, ?_⟩
    · rcases (Bool.or_eq_true _ _).mp hpred with h | h
      · exact Or.inl (by simpa using h)
      · exact Or.inr (by simpa using h)
    · intro hne
      simp [descriptionEditTarget, hbeq, hfind, hne]
    · intro heq
      simp [descriptionEditTarget, hbeq, hfind, heq]
  · intro hnone
    simp [descriptionEditTarget, hbeq, hnone]

/-- Witness for the amended C6: a non-empty edit with a matching copy in
the new version targets the copied row. -/
theorem descriptionEdit_target_resolution_witness :
    origC6.alt_text ≠ some (jsTrim "new text") ∧
    ((∀ nvi, findNewVersionImage (newVersionImages [origC6, copyC6] (some 3))
          origC6 = some nvi →
      nvi ∈ [origC6, copyC6] ∧
      nvi.version_id = some 3 ∧
      (nvi.storage_path = origC6.storage_path ∨
        nvi.position_in_content = origC6.position_in_content) ∧
      (jsTrim "new text" ≠ "" →
        descriptionEditTarget (newVersionImages [origC6, copyC6] (some 3))
          origC6 "new text" = some (nvi.id, jsTrim "new text")) ∧
      (jsTrim "new text" = "" →
        descriptionEditTarget (newVersionImages [origC6, copyC6] (some 3))
          origC6 "new text" = none)) ∧
    (findNewVersionImage (newVersionImages [origC6, copyC6] (some 3)) origC6 =
        none →
      descriptionEditTarget (newVersionImages [origC6, copyC6] (some 3))
        origC6 "new text" = some (origC6.id, jsTrim "new text"))) :=
  ⟨by decide,
    descriptionEdit_target_resolution [origC6, copyC6] (some 3) origC6
      "new text" (by decide)⟩

/-! ### Claim C7: behavior when the backend client is unconfigured -/

/-- A small database used to instantiate the unconfigured behavior. -/
def dbC7 : DB :=
  { nextId := 3, maps := [],
    strategies := [{ id := 1, map_id := 0, title := "t", description := "d",
                     current_version_id := some 2 }],
    versions := [{ id := 2, strategy_id := 1, version_number := 1,
                   title := "t", description := "d", change_notes := none }],
    images := [] }

/-- Counterexample to C7 as stated: with the client unconfigured,
`deleteStrategy` and `deleteStrategyImage` do not throw a configuration
error — they return silently (`if (!supabase) { return }`), leaving the
backend untouched. -/
theorem deleteStrategy_unconfigured_counterexample :
    deleteStrategy false dbC7 1 = .ok dbC7 ∧
    deleteStrategyImage false dbC7 5 = .ok dbC7 ∧
    deleteStrategy false dbC7 1 ≠
      .error (.configuration "Strategy deletion requires Supabase configuration") :=
  ⟨rfl, rfl, fun h => Except.noConfusion h⟩

/-- Claim C7 (amended): with the backend client unconfigured,
`createStrategy`, `updateStrategy`, `createStrategyImage`,
`copyImagesToVersion` and `updateStrategyImage` throw configuration
errors; `deleteStrategy` and `deleteStrategyImage` instead return
silently; the read operations `getStrategies`, `getStrategy`,
`getStrategyVersions` and `searchStrategies` return an empty result or
null; and the map operations work against the in-process mock list. -/
theorem unconfigured_behavior (db : DB) (mock : List MapRow)
    (sid iid mid now : Nat) (cform : CreateStrategyForm)
    (uform : UpdateStrategyForm) (mform : CreateMapForm) (p : MapPatch)
    (q altText : String) (mapId fromV toV : Option Nat)
    (rpcFails selFails : Bool) (insFails : Nat → Bool)
    (storagePath bucketName url : String) (alt : Option String)
    (pos : Option Nat) :
    createStrategy false db cform =
      .error (.configuration "Strategy creation requires Supabase configuration") ∧
    updateStrategy false db sid uform =
      .error (.configuration "Strategy updates require Supabase configuration") ∧
    createStrategyImage false db sid storagePath bucketName url alt pos toV =
      .error (.configuration "Strategy image creation requires Supabase configuration") ∧
    copyImagesToVersion false selFails insFails db sid fromV toV =
      .error (.configuration "Image copying requires Supabase configuration") ∧
    updateStrategyImage false db iid altText =
      .error (.configuration "Strategy image update requires Supabase configuration") ∧
    deleteStrategy false db sid = .ok db ∧
    deleteStrategyImage false db iid = .ok db ∧
    getStrategies false rpcFails db mapId = .ok [] ∧
    getStrategy false rpcFails db sid = .ok none ∧
    getStrategyVersions false db sid = .ok [] ∧
    searchStrategies false db q mapId = .ok [] ∧
    getMaps false mock db = mock ∧
    getMap false mock db mid = .ok (mock.find? (fun m => m.id == mid)) ∧
    (createMap false mock db now mform).2.1 =
      mock ++ [(createMap false mock db now mform).1] ∧
    (createMap false mock db now mform).1.id = now ∧
    (createMap false mock db now mform).1.name = mform.name ∧
    updateMap false mock db mid p =
      (match mock.find? (fun m => m.id == mid) with
       | none => .error DbError.mapNotFound
       | some m =>
         .ok (applyMapPatch p m,
              mock.map (fun x => if x.id == mid then applyMapPatch p m else x),
              db)) ∧
    deleteMap false mock db mid = (mock.filter (fun m => m.id != mid), db) :=
  ⟨rfl, rfl, rfl, rfl, rfl, rfl, rfl, rfl, rfl, rfl, rfl, rfl, rfl, rfl, rfl,
    rfl, rfl, rfl⟩

/-! ### Claims C8 and C9: client-side validation and the upload loop -/

/-- A configured `createStrategyImage` call always succeeds, appending one
row. -/
theorem createStrategyImage_ok (db : DB) (strategyId : Nat)
    (storagePath bucketName url : String) (altText : Option String)
    (positionInContent : Option Nat) (versionId : Option Nat) :
    createStrategyImage true db strategyId storagePath bucketName url altText
        positionInContent versionId =
      .ok (insertImage db
        { id := db.nextId, strategy_id := some strategyId,
          version_id := versionId, storage_path := storagePath,
          bucket_name := bucketName, url := url,
          alt_text := some (jsOrOpt altText
            ("Strategy diagram for " ++ toString strategyId)),
          position_in_content := positionInContent.getD 0 },
        { id := db.nextId, strategy_id := some strategyId,
          version_id := versionId, storage_path := storagePath,
          bucket_name := bucketName, url := url,
          alt_text := some (jsOrOpt altText
            ("Strategy diagram for " ++ toString strategyId)),
          position_in_content := positionInContent.getD 0 }) := rfl

/-- The image rows recorded by a successful run of the upload loop over a
file list: one row per file, in order, with sequential identities and
positions and the version association (proof-side description of the
loop's inserts, echoing the two stages of description defaulting). -/
def expectedUploadRows (sid : Nat) (vid : Option Nat) (descs : List String)
    (count : Nat) (fn : Nat → UploadFile → StoredObject) :
    Nat → Nat → List UploadFile → List ImageRow
  | _, _, [] => []
  | nextId, idx, f :: fs =>
    { id := nextId, strategy_id := some sid, version_id := vid,
      storage_path := (fn idx f).path, bucket_name := "strategy-images",
      url := (fn idx f).url,
      alt_text := some (jsOrOpt
        (some (jsOr (jsTrim (descs.getD idx ""))
          ("Strategy diagram " ++ toString (count + idx + 1) ++ " for " ++
            toString sid)))
        ("Strategy diagram for " ++ toString sid)),
      position_in_content := count + idx } ::
      expectedUploadRows sid vid descs count fn (nextId + 1) (idx + 1) fs

theorem expectedUploadRows_length (sid : Nat) (vid : Option Nat)
    (descs : List String) (count : Nat) (fn : Nat → UploadFile → StoredObject) :
    ∀ (l : List UploadFile) (nextId idx : Nat),
      (expectedUploadRows sid vid descs count fn nextId idx l).length =
        l.length := by
  intro l
  induction l with
  | nil => intro nextId idx; rfl
  | cons f fs ih =>
    intro nextId idx
    simp [expectedUploadRows, ih]

/-- A run of the upload loop in which every upload succeeds: all files are
uploaded and recorded in order, and the URLs are returned. -/
theorem uploadLoop_all_ok (sid : Nat) (vid : Option Nat) (descs : List String)
    (count : Nat) (fails : Nat → Bool) (fn : Nat → UploadFile → StoredObject) :
    ∀ (l : List UploadFile) (db : DB) (storage : List StoredObject)
      (urls : List String) (idx : Nat),
      (∀ j, j < l.length → fails (idx + j) = false) →
      uploadLoop true sid vid descs count fails fn db storage urls idx l =
        ⟨{ db with
             nextId := db.nextId + l.length,
             images := db.images ++
               expectedUploadRows sid vid descs count fn db.nextId idx l },
         storage ++ (List.enumFrom idx l).map (fun p => fn p.1 p.2),
         .ok (urls ++ (List.enumFrom idx l).map (fun p => (fn p.1 p.2).url))⟩ := by
  intro l
  induction l with
  | nil =>
    intro db storage urls idx _
    simp [uploadLoop, expectedUploadRows]
  | cons f fs ih =>
    intro db storage urls idx hok
    have h0 : fails idx = false := by simpa using hok 0 (Nat.succ_pos _)
    have hrest : ∀ j, j < fs.length → fails (idx + 1 + j) = false := by
      intro j hj
      have hj' : j + 1 < (f :: fs).length := by
        simp only [List.length_cons]
        omega
      have hx := hok (j + 1) hj'
      have harr : idx + 1 + j = idx + (j + 1) := by omega
      rw [harr]
      exact hx
    simp only [uploadLoop, h0, if_neg, Bool.false_eq_true, not_false_iff,
      createStrategyImage_ok]
    rw [ih _ _ _ (idx + 1) hrest]
    have henum : List.enumFrom idx (f :: fs) =
        (idx, f) :: List.enumFrom (idx + 1) fs := rfl
    rw [henum]
    simp [insertImage, expectedUploadRows, List.append_assoc, Nat.add_assoc,
      Nat.add_comm, Nat.add_left_comm]

/-- A run of the upload loop that hits its first failing upload after a
clean prefix: it throws `Failed to upload image: <name>` for the failing
file, abandons the remaining files, and leaves exactly the prefix's
uploads and records committed. -/
theorem uploadLoop_abort (sid : Nat) (vid : Option Nat) (descs : List String)
    (count : Nat) (fails : Nat → Bool) (fn : Nat → UploadFile → StoredObject) :
    ∀ (pre : List UploadFile) (bad : UploadFile) (rest : List UploadFile)
      (db : DB) (storage : List StoredObject) (urls : List String) (idx : Nat),
      (∀ j, j < pre.length → fails (idx + j) = false) →
      fails (idx + pre.length) = true →
      uploadLoop true sid vid descs count fails fn db storage urls idx
          (pre ++ bad :: rest) =
        ⟨{ db with
             nextId := db.nextId + pre.length,
             images := db.images ++
               expectedUploadRows sid vid descs count fn db.nextId idx pre },
         storage ++ (List.enumFrom idx pre).map (fun p => fn p.1 p.2),
         .error ("Failed to upload image: " ++ bad.name)⟩ := by
  intro pre
  induction pre with
  | nil =>
    intro bad rest db storage urls idx _ hbad
    have hbad' : fails idx = true := by simpa using hbad
    simp [uploadLoop, hbad', expectedUploadRows]
  | cons f fs ih =>
    intro bad rest db storage urls idx hok hbad
    have h0 : fails idx = false := by simpa using hok 0 (Nat.succ_pos _)
    have hrest : ∀ j, j < fs.length → fails (idx + 1 + j) = false := by
      intro j hj
      have hj' : j + 1 < (f :: fs).length := by
        simp only [List.length_cons]
        omega
      have hx := hok (j + 1) hj'
      have harr : idx + 1 + j = idx + (j + 1) := by omega
      rw [harr]
      exact hx
    have hbad' : fails (idx + 1 + fs.length) = true := by
      have harr : idx + 1 + fs.length = idx + (f :: fs).length := by
        simp only [List.length_cons]
        omega
      rw [harr]
      exact hbad
    simp only [List.cons_append, uploadLoop, h0, if_neg, Bool.false_eq_true,
      not_false_iff, createStrategyImage_ok]
    simp only [List.append_eq]
    rw [ih bad rest _ _ _ (idx + 1) hrest hbad']
    have henum : List.enumFrom idx (f :: fs) =
        (idx, f) :: List.enumFrom (idx + 1) fs := rfl
    rw [henum]
    simp [insertImage, expectedUploadRows, List.append_assoc, Nat.add_assoc,
      Nat.add_comm, Nat.add_left_comm]

/-- A filtered list is shorter than the original exactly when some element
fails the predicate. -/
theorem filter_length_ne_iff {α : Type} (p : α → Bool) (l : List α) :
    (l.filter p).length ≠ l.length ↔ ∃ a ∈ l, p a = false := by
  induction l with
  | nil => simp
  | cons x t ih =>
    by_cases hx : p x = true
    · have hstep : ((x :: t).filter p).length = (t.filter p).length + 1 := by
        simp [List.filter_cons, hx]
      rw [hstep, List.length_cons]
      constructor
      · intro h
        obtain ⟨a, ha, hpa⟩ := ih.mp (fun hc => h (by omega))
        exact ⟨a, List.mem_cons_of_mem _ ha, hpa⟩
      · rintro ⟨a, ha, hpa⟩ h
        rcases List.mem_cons.mp ha with rfl | ha'
        · rw [hx] at hpa; cases hpa
        · exact ih.mpr ⟨a, ha', hpa⟩ (by omega)
    · have hxf : p x = false := by simpa using hx
      have hstep : ((x :: t).filter p).length = (t.filter p).length := by
        simp [List.filter_cons, hxf]
      have hle := List.length_filter_le p t
      rw [hstep, List.length_cons]
      exact iff_of_true (by omega) ⟨x, List.mem_cons_self _ _, hxf⟩

/-- Claim C8: `handleImageSelect` accepts a file exactly when its MIME
type starts with `image/` and its size is at most 5 MiB; rejected files
set an error message but the accepted files are still queued, and a
subsequent clean upload run records exactly the accepted files. -/
theorem handleImageSelect_validation (files : List UploadFile)
    (st : SelectState) :
    (handleImageSelect files st).uploadedImages =
      st.uploadedImages ++ files.filter isValidUpload ∧
    (handleImageSelect files st).imageDescriptions =
      st.imageDescriptions ++ (files.filter isValidUpload).map (fun _ => "") ∧
    (∀ f, f ∈ files.filter isValidUpload ↔
      (f ∈ files ∧ jsStartsWith f.mimeType "image/" = true ∧
        f.size ≤ 5 * 1024 * 1024)) ∧
    ((files.filter isValidUpload).length ≠ files.length ↔
      ∃ f ∈ files, isValidUpload f = false) ∧
    ((files.filter isValidUpload).length ≠ files.length →
      (handleImageSelect files st).errorMsg =
        some "Some files were rejected. Please ensure all files are images under 5MB.") ∧
    ((files.filter isValidUpload).length = files.length →
      (handleImageSelect files st).errorMsg = st.errorMsg) ∧
    (∀ (db : DB) (storage : List StoredObject) (sid : Nat) (vid : Option Nat)
        (descs : List String) (fn : Nat → UploadFile → StoredObject),
      (uploadStrategyImages true db storage sid vid
          (files.filter isValidUpload) descs (fun _ => false) fn).db.images.length
        = db.images.length + (files.filter isValidUpload).length) := by
  refine ⟨rfl, rfl, ?_, filter_length_ne_iff isValidUpload files, ?_, ?_, ?_⟩
  · intro f
    simp [List.mem_filter, isValidUpload, Bool.and_eq_true,
      decide_eq_true_eq, and_assoc]
  · intro h
    show (if (files.filter isValidUpload).length ≠ files.length then _ else _) = _
    rw [if_pos h]
  · intro h
    show (if (files.filter isValidUpload).length ≠ files.length then _ else _) = _
    rw [if_neg (not_not_intro h)]
  · intro db' storage' sid' vid' descs' fn'
    have h := uploadLoop_all_ok sid' vid' descs' (uploadStartCount db' sid')
      (fun _ => false) fn' (files.filter isValidUpload) db' storage' [] 0
      (fun j _ => rfl)
    show (uploadLoop true sid' vid' descs' (uploadStartCount db' sid')
        (fun _ => false) fn' db' storage' [] 0
        (files.filter isValidUpload)).db.images.length = _
    rw [h]
    simp [expectedUploadRows_length]

/-- Concrete files for the C8 witness: two valid images and one file
failing MIME validation. -/
def g1 : UploadFile := { name := "a.png", mimeType := "image/png", size := 100 }

def g2 : UploadFile := { name := "b.jpg", mimeType := "image/jpeg", size := 2048 }

def gBad : UploadFile := { name := "c.txt", mimeType := "text/plain", size := 100 }

def st0 : SelectState :=
  { uploadedImages := [], imageDescriptions := [], errorMsg := none }

def dbW8 : DB :=
  { nextId := 0, maps := [], strategies := [], versions := [], images := [] }

def fnW8 : Nat → UploadFile → StoredObject := fun i _ =>
  { path := "p" ++ toString i, url := "u" ++ toString i }

/-- Witness for C8: selecting three files of which one fails MIME
validation queues exactly the two valid ones, reports an error, and a
clean upload run records exactly 2 image rows. -/
theorem handleImageSelect_validation_witness :
    (handleImageSelect [g1, g2, gBad] st0).uploadedImages = [g1, g2] ∧
    (handleImageSelect [g1, g2, gBad] st0).errorMsg =
      some "Some files were rejected. Please ensure all files are images under 5MB." ∧
    (uploadStrategyImages true dbW8 [] 1 (some 2)
        ([g1, g2, gBad].filter isValidUpload) ["", ""] (fun _ => false)
        fnW8).db.images.length = dbW8.images.length + 2 := by
  refine ⟨?_, ?_, ?_⟩
  · rw [(handleImageSelect_validation [g1, g2, gBad] st0).1]
    decide
  · exact (handleImageSelect_validation [g1, g2, gBad] st0).2.2.2.2.1
      (by decide)
  · exact (handleImageSelect_validation [g1, g2, gBad] st0).2.2.2.2.2.2
      dbW8 [] 1 (some 2) ["", ""] fnW8

/-- Claim C9: the upload loop processes files strictly one at a time in
selection order; the first failing upload throws
`Failed to upload image: <name>` for that file and aborts all remaining
files, leaving exactly the prefix before the failure uploaded to storage
and recorded in the database (one row per prefix file, in order, with
sequential positions), with no compensating deletion of anything already
committed. -/
theorem uploadStrategyImages_prefix_semantics
    (db : DB) (storage : List StoredObject) (sid : Nat) (vid : Option Nat)
    (descs : List String) (uploadFails : Nat → Bool)
    (uploadFn : Nat → UploadFile → StoredObject)
    (pre : List UploadFile) (bad : UploadFile) (rest : List UploadFile)
    (hpre : ∀ j, j < pre.length → uploadFails j = false)
    (hbad : uploadFails pre.length = true) :
    uploadStrategyImages true db storage sid vid (pre ++ bad :: rest) descs
        uploadFails uploadFn =
      ⟨{ db with
           nextId := db.nextId + pre.length,
           images := db.images ++
             expectedUploadRows sid vid descs (uploadStartCount db sid)
               uploadFn db.nextId 0 pre },
       storage ++ (List.enumFrom 0 pre).map (fun p => uploadFn p.1 p.2),
       .error ("Failed to upload image: " ++ bad.name)⟩ ∧
    (expectedUploadRows sid vid descs (uploadStartCount db sid) uploadFn
        db.nextId 0 pre).length = pre.length :=
  ⟨uploadLoop_abort sid vid descs (uploadStartCount db sid) uploadFails
      uploadFn pre bad rest db storage [] 0
      (fun j hj => by simpa using hpre j hj) (by simpa using hbad),
    expectedUploadRows_length sid vid descs (uploadStartCount db sid)
      uploadFn pre db.nextId 0⟩

/-- The upload-failure oracle of the C9 witness: the second upload fails. -/
def failsW9 : Nat → Bool := fun j => j == 1

/-- Witness for C9: of two files, the second upload fails; the run throws
naming the second file and leaves exactly the first file's storage object
and image row committed. -/
theorem uploadStrategyImages_prefix_semantics_witness :
    (∀ j, j < [g1].length → failsW9 j = false) ∧
    failsW9 [g1].length = true ∧
    (uploadStrategyImages true dbW8 [] 1 (some 2) ([g1] ++ g2 :: []) ["d"]
        failsW9 fnW8 =
      ⟨{ dbW8 with
           nextId := dbW8.nextId + [g1].length,
           images := dbW8.images ++
             expectedUploadRows 1 (some 2) ["d"] (uploadStartCount dbW8 1)
               fnW8 dbW8.nextId 0 [g1] },
       [] ++ (List.enumFrom 0 [g1]).map (fun p => fnW8 p.1 p.2),
       .error ("Failed to upload image: " ++ g2.name)⟩ ∧
    (expectedUploadRows 1 (some 2) ["d"] (uploadStartCount dbW8 1) fnW8
        dbW8.nextId 0 [g1]).length = [g1].length) :=
  ⟨by decide, by decide,
    uploadStrategyImages_prefix_semantics dbW8 [] 1 (some 2) ["d"] failsW9
      fnW8 [g1] g2 [] (by decide) (by decide)⟩

end ExvoriaStrat
